import Mathlib

/-!
Verification of the NES emulator core in `samsoftnes.py` (class `NES` and the
frame loop of `SamsoftEmuNES.emulate_loop`).

Shallow embedding conventions:
* Python byte lists of fixed size (`self.memory`, `self.ppu_memory`, `self.vram`,
  `self.palette`, `self.display`, `self.keys`) are modelled as functions
  `Nat → Nat`; their sizes (0x10000, 0x4000, 0x2000, 0x20, 256*240, 8) are the
  sizes fixed by `NES.__init__` and appear as explicit bound checks wherever the
  Python code can raise `IndexError`.
* Python `& 0xFF` / `& 0xFFFF` / `& 0x3FFF` masks on non-negative ints are
  written `% 256` / `% 0x10000` / `% 0x4000`; `S - 1` under `& 0xFF` (with
  `S ≥ 0`) is written `(S + 255) % 256`.
* Fallible operations return `Option` (`none` = an uncaught Python exception);
  the `try`/`except` body of `cpu_step` returns a `Sum`, where `.inl s` is a
  caught fault with `s` the state accumulated up to the fault.
-/

/-- Pointwise update of a byte array modelled as a function. -/
def upd (f : Nat → Nat) (i v : Nat) : Nat → Nat :=
  fun j => if j = i then v else f j

/-- `m[i]` on the 65536-entry CPU memory list: `IndexError` when out of range. -/
def readMem (m : Nat → Nat) (i : Nat) : Option Nat :=
  if i < 0x10000 then some (m i) else none

/-- `m[i] = v` on the 65536-entry CPU memory list. -/
def writeMem (m : Nat → Nat) (i v : Nat) : Option (Nat → Nat) :=
  if i < 0x10000 then some (upd m i v) else none

/-- The `self.registers` dict of `NES.__init__`. -/
structure Registers where
  A : Nat
  X : Nat
  Y : Nat
  PC : Nat
  S : Nat
  P : Nat
deriving Repr, DecidableEq

/-- The mutable state of the `NES` class (the `rom_data` field, which the class
never reads back, is omitted). -/
structure NES where
  memory : Nat → Nat
  registers : Registers
  ppu_memory : Nat → Nat
  vram : Nat → Nat
  palette : Nat → Nat
  display : Nat → Nat
  keys : Nat → Nat
  cycles : Nat
  nmi_pending : Bool
  prg_rom : List Nat
  chr_rom : List Nat
  mapper : Nat

/-- `NES.__init__`. -/
def initNES : NES where
  memory := fun _ => 0
  registers := { A := 0, X := 0, Y := 0, PC := 0x8000, S := 0xFD, P := 0x34 }
  ppu_memory := fun _ => 0
  vram := fun _ => 0
  palette := fun _ => 0
  display := fun _ => 0
  keys := fun _ => 0
  cycles := 0
  nmi_pending := false
  prg_rom := []
  chr_rom := []
  mapper := 0

/-- The snapshot dict built by `save_state` / consumed by `load_state`.  Each
field is an `Option` so that a snapshot with a missing dict key (which makes
the Python `state['…']` lookup raise `KeyError`) can be represented. -/
structure StateDict where
  memory : Option (Nat → Nat)
  registers : Option Registers
  ppu_memory : Option (Nat → Nat)
  vram : Option (Nat → Nat)
  palette : Option (Nat → Nat)
  display : Option (Nat → Nat)
  keys : Option (Nat → Nat)
  cycles : Option Nat
  nmi_pending : Option Bool

/-- `NES.save_state`: a dict holding copies of every live field. -/
def save_state (s : NES) : StateDict where
  memory := some s.memory
  registers := some s.registers
  ppu_memory := some s.ppu_memory
  vram := some s.vram
  palette := some s.palette
  display := some s.display
  keys := some s.keys
  cycles := some s.cycles
  nmi_pending := some s.nmi_pending

/-- `NES.load_state`: assigns the nine fields one after the other, in source
order, with no rollback.  The returned `Bool` is `true` when a `KeyError`
escaped (a missing key aborts the remaining assignments but keeps the ones
already made). -/
def load_state (s : NES) (st : StateDict) : NES × Bool :=
  match st.memory with
  | none => (s, true)
  | some memory =>
    let s := { s with memory := memory }
    match st.registers with
    | none => (s, true)
    | some registers =>
      let s := { s with registers := registers }
      match st.ppu_memory with
      | none => (s, true)
      | some ppu_memory =>
        let s := { s with ppu_memory := ppu_memory }
        match st.vram with
        | none => (s, true)
        | some vram =>
          let s := { s with vram := vram }
          match st.palette with
          | none => (s, true)
          | some palette =>
            let s := { s with palette := palette }
            match st.display with
            | none => (s, true)
            | some display =>
              let s := { s with display := display }
              match st.keys with
              | none => (s, true)
              | some keys =>
                let s := { s with keys := keys }
                match st.cycles with
                | none => (s, true)
                | some cycles =>
                  let s := { s with cycles := cycles }
                  match st.nmi_pending with
                  | none => (s, true)
                  | some nmi_pending => ({ s with nmi_pending := nmi_pending }, false)

/-- `header = f.read(16)` of `NES.load_rom`. -/
def romHeader (rom : List Nat) : List Nat := rom.take 16

/-- `prg_size = header[4] * 0x4000`. -/
def prgSize (rom : List Nat) : Nat := (romHeader rom).getD 4 0 * 0x4000

/-- `chr_size = header[5] * 0x2000`. -/
def chrSize (rom : List Nat) : Nat := (romHeader rom).getD 5 0 * 0x2000

/-- `self.mapper = (header[6] >> 4) | (header[7] & 0xF0)`. -/
def mapperOf (rom : List Nat) : Nat :=
  ((romHeader rom).getD 6 0 >>> 4) ||| ((romHeader rom).getD 7 0 &&& 0xF0)

/-- `self.prg_rom = f.read(prg_size)`, reading from stream offset 16. -/
def romPrg (rom : List Nat) : List Nat := (rom.drop 16).take (prgSize rom)

/-- `self.chr_rom = f.read(chr_size) if chr_size else [0] * 0x2000`. -/
def romChr (rom : List Nat) : List Nat :=
  if chrSize rom ≠ 0 then (rom.drop (16 + prgSize rom)).take (chrSize rom)
  else List.replicate 0x2000 0

/-- One iteration of the PRG mapping loop of `NES.load_rom`
(`self.memory[0x8000 + i] = self.memory[0xC000 + i] = self.prg_rom[i]` for
mapper 0 and `i < 0x4000`, `self.memory[0x8000 + i] = self.prg_rom[i]` for
mapper 0 and `i < 0x8000`, no write otherwise). -/
def prgStep (mapper : Nat) (prg : List Nat) (m : Nat → Nat) (i : Nat) : Nat → Nat :=
  if mapper = 0 ∧ i < 0x4000 then
    upd (upd m (0x8000 + i) (prg.getD i 0)) (0xC000 + i) (prg.getD i 0)
  else if mapper = 0 ∧ i < 0x8000 then
    upd m (0x8000 + i) (prg.getD i 0)
  else m

/-- `for i in range(len(self.prg_rom)): …` of `NES.load_rom`. -/
def mapLoop (m : Nat → Nat) (prg : List Nat) (mapper : Nat) : Nat → Nat :=
  (List.range prg.length).foldl (prgStep mapper prg) m

/-- `for i in range(len(self.chr_rom)): self.ppu_memory[i] = self.chr_rom[i]`. -/
def chrCopy (ppu : Nat → Nat) (chr : List Nat) : Nat → Nat :=
  (List.range chr.length).foldl (fun p i => upd p i (chr.getD i 0)) ppu

/-- Exact success condition of `NES.load_rom`: the magic bytes match, the four
header bytes `header[4]`…`header[7]` exist (otherwise `IndexError`), the PRG
region is read in full, and the CHR copy loop stays inside the 16384-entry
`ppu_memory` (otherwise `IndexError` at `i = 0x4000`). -/
def loadOk (rom : List Nat) : Bool :=
  (romHeader rom).take 4 == [0x4E, 0x45, 0x53, 0x1A] &&
  decide (8 ≤ (romHeader rom).length) &&
  (romPrg rom).length == prgSize rom &&
  decide ((romChr rom).length ≤ 0x4000)

/-- `NES.load_rom` (the body of the `try`; `none` is the `return False` path).
On failure the partially-mutated live state is discarded by the callers that
the claims cover, so only the success state is returned. -/
def load_rom (s : NES) (rom : List Nat) : Option NES :=
  if (romHeader rom).take 4 ≠ [0x4E, 0x45, 0x53, 0x1A] then none
  else if (romHeader rom).length < 8 then none
  else if (romPrg rom).length ≠ prgSize rom then none
  else if 0x4000 < (romChr rom).length then none
  else some { s with
    mapper := mapperOf rom
    prg_rom := romPrg rom
    chr_rom := romChr rom
    memory := mapLoop s.memory (romPrg rom) (mapperOf rom)
    ppu_memory := chrCopy s.ppu_memory (romChr rom) }

/-- The new status byte computed by `NES.set_flags`:
`(P & 0x7D) | (0x80 if value & 0x80 else 0) | (0x02 if value == 0 else 0)`. -/
def set_flagsP (p value : Nat) : Nat :=
  (p &&& 0x7D) ||| (if value &&& 0x80 ≠ 0 then 0x80 else 0) |||
    (if value = 0 then 0x02 else 0)

/-- `NES.set_flags`. -/
def set_flags (s : NES) (value : Nat) : NES :=
  { s with registers := { s.registers with P := set_flagsP s.registers.P value } }

/-- `NES.push_stack`: write at `0x100 + S`, then `S = (S - 1) & 0xFF`. -/
def push_stack (s : NES) (value : Nat) : Option NES :=
  match writeMem s.memory (0x100 + s.registers.S) value with
  | none => none
  | some m =>
    some { s with memory := m
                  registers := { s.registers with S := (s.registers.S + 255) % 256 } }

/-- The fetch increment `self.registers['PC'] = (self.registers['PC'] + 1) & 0xFFFF`. -/
def fetchAdvance (s : NES) : NES :=
  { s with registers := { s.registers with PC := (s.registers.PC + 1) % 0x10000 } }

/-- The `try` body of `NES.cpu_step` after the opcode fetch: dispatch on the
opcode.  `.inr (s, c)` is normal completion with cycle count `c`; `.inl s` is a
caught fault (`IndexError` on an unmasked operand access) with `s` the state at
the moment of the fault. -/
def execOp (s : NES) (opcode : Nat) : NES ⊕ (NES × Nat) :=
  if opcode = 0xA9 then      -- LDA Immediate
    match readMem s.memory s.registers.PC with
    | none => .inl s
    | some v =>
      let s := { s with registers := { s.registers with
        A := v, PC := (s.registers.PC + 1) % 0x10000 } }
      .inr (set_flags s s.registers.A, 2)
  else if opcode = 0xAD then -- LDA Absolute
    -- the PC increment `(PC + 2) & 0xFFFF` happens between the operand fetches
    -- and the data read, so a fault on the data read keeps the new PC
    match readMem s.memory s.registers.PC with
    | none => .inl s
    | some lo =>
      match readMem s.memory (s.registers.PC + 1) with
      | none => .inl s
      | some hi =>
        match readMem s.memory ((lo ||| (hi <<< 8)) % 0x10000) with
        | none => .inl { s with registers := { s.registers with
            PC := (s.registers.PC + 2) % 0x10000 } }
        | some v =>
          .inr (set_flags { s with registers := { s.registers with
            PC := (s.registers.PC + 2) % 0x10000, A := v } } v, 4)
  else if opcode = 0x8D then -- STA Absolute
    match readMem s.memory s.registers.PC with
    | none => .inl s
    | some lo =>
      match readMem s.memory (s.registers.PC + 1) with
      | none => .inl s
      | some hi =>
        match writeMem s.memory ((lo ||| (hi <<< 8)) % 0x10000) s.registers.A with
        | none => .inl { s with registers := { s.registers with
            PC := (s.registers.PC + 2) % 0x10000 } }
        | some m => .inr ({ s with memory := m, registers := { s.registers with
            PC := (s.registers.PC + 2) % 0x10000 } }, 4)
  else if opcode = 0x4C then -- JMP Absolute
    match readMem s.memory s.registers.PC with
    | none => .inl s
    | some lo =>
      match readMem s.memory (s.registers.PC + 1) with
      | none => .inl s
      | some hi =>
        .inr ({ s with registers := { s.registers with PC := (hi <<< 8) ||| lo } }, 3)
  else .inr (s, 2)           -- Fallback

/-- `NES.cpu_step`.  `none` is an exception escaping to the caller (only
possible outside the `try`: the opcode fetch, or a push during NMI service).
Otherwise returns the new state and the returned cycle count.  Note the NMI
path returns 7 without adding to `self.cycles`, exactly as the source does. -/
def cpu_step (s : NES) : Option (NES × Nat) :=
  if s.nmi_pending then
    match push_stack { s with nmi_pending := false } ((s.registers.PC >>> 8) % 256) with
    | none => none
    | some s1 =>
      match push_stack s1 (s1.registers.PC % 256) with
      | none => none
      | some s2 =>
        match push_stack s2 s2.registers.P with
        | none => none
        | some s3 =>
          match readMem s3.memory 0xFFFA, readMem s3.memory 0xFFFB with
          | some pc_low, some pc_high =>
            some ({ s3 with registers := { s3.registers with
              PC := (pc_high <<< 8) ||| pc_low, P := s3.registers.P ||| 0x04 } }, 7)
          | _, _ => none
  else
    match readMem s.memory s.registers.PC with
    | none => none
    | some opcode =>
      match execOp (fetchAdvance s) opcode with
      | .inr (s2, c) => some ({ s2 with cycles := s2.cycles + c }, c)
      | .inl s2 => some ({ s2 with cycles := s2.cycles + 2 }, 2)

/-- One attempted access to the `self.memory` list during `cpu_step`. -/
structure MemAcc where
  write : Bool
  idx : Nat
deriving Repr, DecidableEq

/-- The sequence of indices `cpu_step` uses on the 65536-entry `self.memory`
list, in program order, including the index of an access that raises
`IndexError` (after which no further access happens). -/
def stepAccesses (s : NES) : List MemAcc :=
  if s.nmi_pending then
    let a1 := 0x100 + s.registers.S
    if a1 < 0x10000 then
      let a2 := 0x100 + (s.registers.S + 255) % 256
      if a2 < 0x10000 then
        let a3 := 0x100 + ((s.registers.S + 255) % 256 + 255) % 256
        if a3 < 0x10000 then
          [⟨true, a1⟩, ⟨true, a2⟩, ⟨true, a3⟩, ⟨false, 0xFFFA⟩, ⟨false, 0xFFFB⟩]
        else [⟨true, a1⟩, ⟨true, a2⟩, ⟨true, a3⟩]
      else [⟨true, a1⟩, ⟨true, a2⟩]
    else [⟨true, a1⟩]
  else
    let pc := s.registers.PC
    if pc < 0x10000 then
      let op := s.memory pc
      let pc1 := (pc + 1) % 0x10000
      ⟨false, pc⟩ ::
        (if op = 0xA9 then [⟨false, pc1⟩]
         else if op = 0xAD ∨ op = 0x8D then
           ⟨false, pc1⟩ ::
             (if pc1 + 1 < 0x10000 then
               [⟨false, pc1 + 1⟩,
                ⟨op = 0x8D, (s.memory pc1 ||| (s.memory (pc1 + 1) <<< 8)) % 0x10000⟩]
              else [⟨false, pc1 + 1⟩])
         else if op = 0x4C then [⟨false, pc1⟩, ⟨false, pc1 + 1⟩]
         else [])
    else [⟨false, pc⟩]

/-- The 2-bit pixel value of `NES.render_frame` at row `y`, column `x`:
name-table lookup, 16-byte pattern strip (a Python slice, zero-padded), and
the two bit-plane bits. -/
def pixValue (vram ppu : Nat → Nat) (y x : Nat) : Nat :=
  let tile_addr := (y / 8 * 32 + x / 8) % 0x2000
  let tile_idx := vram tile_addr
  let tile_offset := tile_idx * 16
  let pattern := fun j => if tile_offset + j < 0x4000 then ppu (tile_offset + j) else 0
  let bit_low := (pattern (y % 8) >>> (7 - x % 8)) &&& 1
  let bit_high := (pattern (y % 8 + 8) >>> (7 - x % 8)) &&& 1
  (bit_high <<< 1) ||| bit_low

/-- The byte `NES.render_frame` stores into `self.display[y*256 + x]`. -/
def renderPixel (vram ppu : Nat → Nat) (y x : Nat) : Nat :=
  let pix := pixValue vram ppu y x
  let pal_offset := 0x3F00 + (if pix = 0 then 0 else pix)
  if pal_offset < 0x4000 then ppu (pal_offset % 0x4000) &&& 0x3F else 0

/-- The inner column loop of `NES.render_frame` for row `y`: writes
`display[y*256 + x]` for `x = 0..255`. -/
def renderRow (vram ppu : Nat → Nat) (y : Nat) (d : Nat → Nat) : Nat → Nat :=
  (List.range 256).foldl (fun d x => upd d (y * 256 + x) (renderPixel vram ppu y x)) d

/-- `NES.render_frame`: the double loop over 240 rows and 256 columns. -/
def render_frame (s : NES) : NES :=
  { s with display :=
      (List.range 240).foldl (fun d y => renderRow s.vram s.ppu_memory y d) s.display }

/-- Invariants established by `NES.__init__` and preserved by `cpu_step`:
registers hold bytes (PC a 16-bit word) and memory holds bytes. -/
def WF (s : NES) : Prop :=
  s.registers.PC < 0x10000 ∧ s.registers.A < 256 ∧ s.registers.P < 256 ∧
    s.registers.S < 256 ∧ ∀ i, s.memory i < 256

theorem execOp_cycles (s t : NES) (op c : Nat)
    (h : execOp s op = .inr (t, c)) : c = 2 ∨ c = 3 ∨ c = 4 := by
  unfold execOp at h
  repeat' split at h
  all_goals simp_all

theorem cpu_step_some_cycles (s s' : NES) (c : Nat)
    (h : cpu_step s = some (s', c)) : c = 7 ∨ c = 2 ∨ c = 3 ∨ c = 4 := by
  unfold cpu_step at h
  split at h
  · repeat' split at h
    all_goals simp_all
  · split at h
    · exact absurd h (by simp)
    · split at h
      · rename_i s2 c2 heq
        simp only [Option.some.injEq, Prod.mk.injEq] at h
        have := execOp_cycles _ _ _ _ heq
        omega
      · simp only [Option.some.injEq, Prod.mk.injEq] at h
        omega

theorem lor_lt {x y n : Nat} (hx : x < 2 ^ n) (hy : y < 2 ^ n) : x ||| y < 2 ^ n :=
  Nat.bitwise_lt hx hy

theorem nat_and_or_right (x y c : Nat) : (x ||| y) &&& c = (x &&& c) ||| (y &&& c) := by
  apply Nat.eq_of_testBit_eq
  intro i
  simp [Nat.testBit_land, Nat.testBit_lor, Bool.and_or_distrib_right]

theorem set_flagsP_and_7D (p v : Nat) : set_flagsP p v &&& 0x7D = p &&& 0x7D := by
  unfold set_flagsP
  rw [nat_and_or_right, nat_and_or_right, Nat.land_assoc]
  have h1 : (0x7D &&& 0x7D : Nat) = 0x7D := by decide
  have h2 : ((if v &&& 0x80 ≠ 0 then 0x80 else 0) &&& 0x7D : Nat) = 0 := by
    split <;> decide
  have h3 : ((if v = 0 then 0x02 else 0) &&& 0x7D : Nat) = 0 := by
    split <;> decide
  rw [h1, h2, h3, Nat.or_zero, Nat.or_zero]

theorem set_flagsP_zero_bit (p v : Nat) :
    set_flagsP p v &&& 0x02 = if v = 0 then 0x02 else 0 := by
  unfold set_flagsP
  rw [nat_and_or_right, nat_and_or_right, Nat.land_assoc]
  have h1 : (0x7D &&& 0x02 : Nat) = 0 := by decide
  have h2 : ((if v &&& 0x80 ≠ 0 then 0x80 else 0) &&& 0x02 : Nat) = 0 := by
    split <;> decide
  have h3 : ((if v = 0 then 0x02 else 0) &&& 0x02 : Nat) = if v = 0 then 0x02 else 0 := by
    split <;> decide
  rw [h1, h2, h3, Nat.and_zero, Nat.zero_or, Nat.zero_or]

theorem set_flagsP_neg_bit (p v : Nat) :
    set_flagsP p v &&& 0x80 = if v &&& 0x80 ≠ 0 then 0x80 else 0 := by
  unfold set_flagsP
  rw [nat_and_or_right, nat_and_or_right, Nat.land_assoc]
  have h1 : (0x7D &&& 0x80 : Nat) = 0 := by decide
  have h2 : ((if v &&& 0x80 ≠ 0 then 0x80 else 0) &&& 0x80 : Nat)
      = if v &&& 0x80 ≠ 0 then 0x80 else 0 := by split <;> decide
  have h3 : ((if v = 0 then 0x02 else 0) &&& 0x80 : Nat) = 0 := by
    split <;> decide
  rw [h1, h2, h3, Nat.and_zero, Nat.zero_or, Nat.or_zero]

theorem set_flagsP_lt (p v : Nat) : set_flagsP p v < 256 := by
  unfold set_flagsP
  have h256 : (256 : Nat) = 2 ^ 8 := by norm_num
  rw [h256]
  apply lor_lt
  apply lor_lt
  · calc p &&& 0x7D ≤ 0x7D := Nat.and_le_right
      _ < 2 ^ 8 := by norm_num
  · split <;> norm_num
  · split <;> norm_num

theorem readMem_some {m : Nat → Nat} {i v : Nat} (h : readMem m i = some v) :
    v = m i ∧ i < 0x10000 := by
  unfold readMem at h
  split at h <;> simp_all

theorem readMem_eq {m : Nat → Nat} {i : Nat} (h : i < 0x10000) :
    readMem m i = some (m i) := by
  unfold readMem
  rw [if_pos h]

theorem writeMem_eq {m : Nat → Nat} {i : Nat} (v : Nat) (h : i < 0x10000) :
    writeMem m i v = some (upd m i v) := by
  unfold writeMem
  rw [if_pos h]

theorem push_stack_eq (s : NES) (v : Nat) (hS : 0x100 + s.registers.S < 0x10000) :
    push_stack s v = some { s with
      memory := upd s.memory (0x100 + s.registers.S) v
      registers := { s.registers with S := (s.registers.S + 255) % 256 } } := by
  unfold push_stack
  rw [writeMem_eq _ hS]

theorem push_stack_if (s : NES) (v : Nat) :
    push_stack s v = if 0x100 + s.registers.S < 0x10000 then
      some { s with
        memory := upd s.memory (0x100 + s.registers.S) v
        registers := { s.registers with S := (s.registers.S + 255) % 256 } }
    else none := by
  unfold push_stack writeMem
  split
  · rename_i heq
    split at heq
    · exact Option.noConfusion heq
    · rw [if_neg (by assumption)]
  · rename_i m heq
    split at heq
    · rw [Option.some.injEq] at heq
      subst heq
      rw [if_pos (by assumption)]
    · exact Option.noConfusion heq

/-- A caught fault in the dispatch body leaves the state exactly as it was at
the start of the body: the only reachable fault points are the unmasked operand
fetches, which precede every mutation (the masked data accesses of
0xAD/0x8D cannot fault). -/
theorem execOp_inl_eq (s t : NES) (op : Nat) (h : execOp s op = .inl t) : t = s := by
  unfold execOp at h
  repeat' split at h
  all_goals first
    | exact (Sum.noConfusion h)
    | exact (Sum.inl.inj h).symm
    | (rename_i hnone
       first
         | rw [readMem_eq (Nat.mod_lt _ (by norm_num))] at hnone
         | (unfold writeMem at hnone
            rw [if_pos (Nat.mod_lt _ (by norm_num))] at hnone)
       exact Option.noConfusion hnone)

theorem upd_lt {m : Nat → Nat} {i v : Nat} (hm : ∀ j, m j < 256) (hv : v < 256) :
    ∀ j, upd m i v j < 256 := by
  intro j
  unfold upd
  split
  · exact hv
  · exact hm j

theorem execOp_inr_WF (s t : NES) (op c : Nat) (hWF : WF s)
    (h : execOp s op = .inr (t, c)) : WF t := by
  obtain ⟨hPC, hA, hP, hS, hm⟩ := hWF
  have h2p16 : (65536 : Nat) = 2 ^ 16 := by norm_num
  unfold execOp at h
  repeat' split at h
  all_goals try exact (Sum.noConfusion h)
  all_goals
    rw [Sum.inr.injEq, Prod.mk.injEq] at h
    obtain ⟨ht, hc⟩ := h
    subst ht
  -- LDA Immediate
  · rename_i v hv
    obtain ⟨hv1, hv2⟩ := readMem_some hv
    subst hv1
    exact ⟨Nat.mod_lt _ (by norm_num), hm _, set_flagsP_lt _ _, hS, hm⟩
  -- LDA Absolute
  · rename_i lo hlo _ hi hhi v hv
    obtain ⟨hv1, _⟩ := readMem_some hv
    subst hv1
    exact ⟨Nat.mod_lt _ (by norm_num), hm _, set_flagsP_lt _ _, hS, hm⟩
  -- STA Absolute
  · rename_i lo hlo _ hi hhi m hw
    unfold writeMem at hw
    split at hw
    · rw [Option.some.injEq] at hw
      subst hw
      exact ⟨Nat.mod_lt _ (by norm_num), hA, hP, hS, upd_lt hm hA⟩
    · exact (Option.noConfusion hw)
  -- JMP Absolute
  · rename_i lo hlo _ hi hhi
    obtain ⟨hlo1, _⟩ := readMem_some hlo
    obtain ⟨hhi1, _⟩ := readMem_some hhi
    refine ⟨?_, hA, hP, hS, hm⟩
    subst hlo1 hhi1
    rw [h2p16]
    have h28 : (256 : Nat) = 2 ^ 8 := by norm_num
    exact Nat.append_lt (h28 ▸ hm _) (h28 ▸ hm _)
  -- Fallback
  · exact ⟨hPC, hA, hP, hS, hm⟩

/-- The memory after the three NMI-service pushes: PC-high at `0x100 + S`,
PC-low at the once-decremented S, the status byte at the twice-decremented S. -/
def pushedMem (mem : Nat → Nat) (PC S P : Nat) : Nat → Nat :=
  upd (upd (upd mem (0x100 + S) (PC >>> 8 % 256))
        (0x100 + (S + 255) % 256) (PC % 256))
    (0x100 + ((S + 255) % 256 + 255) % 256) P

theorem cpu_step_nmi (s : NES) (hn : s.nmi_pending = true) (hS : s.registers.S < 256) :
    cpu_step s = some ({ s with
      memory := pushedMem s.memory s.registers.PC s.registers.S s.registers.P
      registers := { s.registers with
        PC := (pushedMem s.memory s.registers.PC s.registers.S s.registers.P 0xFFFB <<< 8) |||
              pushedMem s.memory s.registers.PC s.registers.S s.registers.P 0xFFFA
        S := (((s.registers.S + 255) % 256 + 255) % 256 + 255) % 256
        P := s.registers.P ||| 0x04 }
      nmi_pending := false }, 7) := by
  obtain ⟨mem, regs, ppu, vr, pal, disp, ks, cyc, nmi, prg, chr, mp⟩ := s
  obtain ⟨A, X, Y, PC, S, P⟩ := regs
  simp only at hn hS
  unfold cpu_step
  rw [if_pos hn]
  rw [push_stack_if]
  rw [if_pos (show (0x100 : Nat) + S < 0x10000 by omega)]
  simp only []
  rw [push_stack_if]
  rw [if_pos (show (0x100 : Nat) + (S + 255) % 256 < 0x10000 by omega)]
  simp only []
  rw [push_stack_if]
  rw [if_pos (show (0x100 : Nat) + ((S + 255) % 256 + 255) % 256 < 0x10000 by omega)]
  simp only []
  rw [readMem_eq (show (0xFFFA : Nat) < 0x10000 by norm_num),
    readMem_eq (show (0xFFFB : Nat) < 0x10000 by norm_num)]
  rfl

theorem pushedMem_lt (mem : Nat → Nat) (PC S P : Nat) (hm : ∀ j, mem j < 256)
    (hP : P < 256) : ∀ j, pushedMem mem PC S P j < 256 :=
  upd_lt (upd_lt (upd_lt hm (Nat.mod_lt _ (by norm_num))) (Nat.mod_lt _ (by norm_num))) hP

theorem cpu_step_normal (s : NES) (hn : s.nmi_pending = false) (hPC : s.registers.PC < 0x10000) :
    cpu_step s = match execOp (fetchAdvance s) (s.memory s.registers.PC) with
      | .inr (s2, c) => some ({ s2 with cycles := s2.cycles + c }, c)
      | .inl s2 => some ({ s2 with cycles := s2.cycles + 2 }, 2) := by
  unfold cpu_step
  rw [hn]
  rw [if_neg Bool.false_ne_true]
  rw [readMem_eq hPC]

theorem cpu_step_WF (s : NES) (hWF : WF s) :
    ∃ s' c, cpu_step s = some (s', c) ∧ WF s' ∧ (c = 7 ∨ c = 2 ∨ c = 3 ∨ c = 4) := by
  obtain ⟨hPC, hA, hP, hS, hm⟩ := hWF
  have h28 : (256 : Nat) = 2 ^ 8 := by norm_num
  have h216 : (65536 : Nat) = 2 ^ 16 := by norm_num
  by_cases hn : s.nmi_pending = true
  · refine ⟨_, 7, cpu_step_nmi s hn hS, ?_, Or.inl rfl⟩
    have hmem := pushedMem_lt s.memory s.registers.PC s.registers.S s.registers.P hm hP
    refine ⟨?_, hA, ?_, ?_, hmem⟩
    · exact h216.symm ▸ Nat.append_lt (h28 ▸ hmem 0xFFFA) (h28 ▸ hmem 0xFFFB)
    · exact h28.symm ▸ lor_lt (h28 ▸ hP) (by norm_num)
    · exact Nat.mod_lt _ (by norm_num)
  · simp only [Bool.not_eq_true] at hn
    have hWF1 : WF (fetchAdvance s) := ⟨Nat.mod_lt _ (by norm_num), hA, hP, hS, hm⟩
    rcases hE : execOp (fetchAdvance s) (s.memory s.registers.PC) with t | tc
    · rw [cpu_step_normal s hn hPC, hE]
      have ht := execOp_inl_eq _ _ _ hE
      subst ht
      obtain ⟨w1, w2, w3, w4, w5⟩ := hWF1
      exact ⟨_, 2, rfl, ⟨w1, w2, w3, w4, w5⟩, by omega⟩
    · obtain ⟨t, c⟩ := tc
      rw [cpu_step_normal s hn hPC, hE]
      obtain ⟨w1, w2, w3, w4, w5⟩ := execOp_inr_WF _ _ _ _ hWF1 hE
      have hc := execOp_cycles _ _ _ _ hE
      exact ⟨_, c, rfl, ⟨w1, w2, w3, w4, w5⟩, by omega⟩

/-- The per-frame loop body of `SamsoftEmuNES.emulate_loop`:
`while cycles < target_cycles: cycles += self.nes.cpu_step()`.
Returns the final state, the accumulated cycle count, and `true` when an
exception escaped `cpu_step` (which makes the surrounding loop stop).
Total because every returned cycle count is at least 2. -/
def runFrame (s : NES) (acc target : Nat) : NES × Nat × Bool :=
  if acc < target then
    match h : cpu_step s with
    | none => (s, acc, true)
    | some (s', c) => runFrame s' (acc + c) target
  else (s, acc, false)
termination_by target - acc
decreasing_by
  have := cpu_step_some_cycles _ _ _ h
  omega

theorem runFrame_reaches_target (n : Nat) : ∀ s acc target, WF s → target - acc ≤ n →
    (runFrame s acc target).2.2 = false ∧ target ≤ (runFrame s acc target).2.1 := by
  induction n with
  | zero =>
    intro s acc target _ hle
    rw [runFrame]
    have hnl : ¬acc < target := by omega
    rw [if_neg hnl]
    refine ⟨rfl, ?_⟩
    show target ≤ acc
    omega
  | succ n ih =>
    intro s acc target hWF hle
    rw [runFrame]
    by_cases hlt : acc < target
    · rw [if_pos hlt]
      obtain ⟨s', c, hstep, hWF', hc⟩ := cpu_step_WF s hWF
      rw [hstep]
      exact ih s' (acc + c) target hWF' (by omega)
    · rw [if_neg hlt]
      refine ⟨rfl, ?_⟩
      show target ≤ acc
      omega

/-- Closed form for the mapper-0 PRG mapping loop after `k` iterations: the
window `0x8000 + i` holds PRG byte `i` once iteration `i < k` has run, and the
mirror `0xC000 + j` additionally holds PRG byte `j` from iterations `j < 0x4000`
unless a later iteration `0x4000 + j < k` overwrote it. -/
def mapZeroSpec (prg : List Nat) (m : Nat → Nat) (k a : Nat) : Nat :=
  if 0x8000 ≤ a ∧ a < 0x10000 ∧ a - 0x8000 < k then prg.getD (a - 0x8000) 0
  else if 0xC000 ≤ a ∧ a < 0x10000 ∧ a - 0xC000 < k then prg.getD (a - 0xC000) 0
  else m a

theorem mapZero_get (prg : List Nat) (m : Nat → Nat) : ∀ k a,
    ((List.range k).foldl (prgStep 0 prg) m) a = mapZeroSpec prg m k a := by
  intro k
  induction k with
  | zero =>
    intro a
    unfold mapZeroSpec
    simp only [List.range_zero, List.foldl_nil]
    rw [if_neg (by omega), if_neg (by omega)]
  | succ k ih =>
    intro a
    rw [List.range_succ, List.foldl_append, List.foldl_cons, List.foldl_nil]
    generalize hF : List.foldl (prgStep 0 prg) m (List.range k) = F
    rw [hF] at ih
    unfold prgStep
    by_cases hk4 : k < 0x4000
    · rw [if_pos ⟨rfl, hk4⟩]
      unfold upd
      by_cases hC : a = 0xC000 + k
      · rw [if_pos hC]
        unfold mapZeroSpec
        rw [if_neg (by omega), if_pos (by omega)]
        rw [show a - 0xC000 = k from by omega]
      · rw [if_neg hC]
        by_cases h8 : a = 0x8000 + k
        · rw [if_pos h8]
          unfold mapZeroSpec
          rw [if_pos (by omega)]
          rw [show a - 0x8000 = k from by omega]
        · rw [if_neg h8, ih]
          unfold mapZeroSpec
          by_cases c1 : 0x8000 ≤ a ∧ a < 0x10000 ∧ a - 0x8000 < k
          · rw [if_pos c1, if_pos (by omega)]
          · rw [if_neg c1]
            by_cases c1h : 0x8000 ≤ a ∧ a < 0x10000 ∧ a - 0x8000 < k + 1
            · exfalso
              exact h8 (by omega)
            · rw [if_neg c1h]
              by_cases c2 : 0xC000 ≤ a ∧ a < 0x10000 ∧ a - 0xC000 < k
              · rw [if_pos c2, if_pos (by omega)]
              · rw [if_neg c2]
                by_cases c2h : 0xC000 ≤ a ∧ a < 0x10000 ∧ a - 0xC000 < k + 1
                · exfalso
                  exact hC (by omega)
                · rw [if_neg c2h]
    · rw [if_neg (by omega)]
      by_cases hk8 : k < 0x8000
      · rw [if_pos ⟨rfl, hk8⟩]
        unfold upd
        by_cases h8 : a = 0x8000 + k
        · rw [if_pos h8]
          unfold mapZeroSpec
          rw [if_pos (by omega)]
          rw [show a - 0x8000 = k from by omega]
        · rw [if_neg h8, ih]
          unfold mapZeroSpec
          by_cases c1 : 0x8000 ≤ a ∧ a < 0x10000 ∧ a - 0x8000 < k
          · rw [if_pos c1, if_pos (by omega)]
          · rw [if_neg c1]
            by_cases c1h : 0x8000 ≤ a ∧ a < 0x10000 ∧ a - 0x8000 < k + 1
            · exfalso
              exact h8 (by omega)
            · rw [if_neg c1h]
              by_cases c2 : 0xC000 ≤ a ∧ a < 0x10000 ∧ a - 0xC000 < k
              · rw [if_pos c2, if_pos (by omega)]
              · rw [if_neg c2, if_neg (by omega)]
      · rw [if_neg (by omega), ih]
        unfold mapZeroSpec
        by_cases c1 : 0x8000 ≤ a ∧ a < 0x10000 ∧ a - 0x8000 < k
        · rw [if_pos c1, if_pos (by omega)]
        · rw [if_neg c1]
          by_cases c1h : 0x8000 ≤ a ∧ a < 0x10000 ∧ a - 0x8000 < k + 1
          · exfalso
            omega
          · rw [if_neg c1h]
            by_cases c2 : 0xC000 ≤ a ∧ a < 0x10000 ∧ a - 0xC000 < k
            · rw [if_pos c2, if_pos (by omega)]
            · rw [if_neg c2, if_neg (by omega)]

theorem mapLoop_zero (m : Nat → Nat) (prg : List Nat) (a : Nat) :
    mapLoop m prg 0 a = mapZeroSpec prg m prg.length a :=
  mapZero_get prg m prg.length a

theorem mapLoop_nonzero (m : Nat → Nat) (prg : List Nat) (mapper : Nat)
    (hmap : mapper ≠ 0) : mapLoop m prg mapper = m := by
  unfold mapLoop
  generalize List.range prg.length = l
  induction l generalizing m with
  | nil => rfl
  | cons i l ih =>
    rw [List.foldl_cons]
    have hstep : prgStep mapper prg m i = m := by
      unfold prgStep
      rw [if_neg (by tauto), if_neg (by tauto)]
    rw [hstep]
    exact ih m

theorem load_rom_none_iff (s : NES) (rom : List Nat) :
    load_rom s rom = none ↔ loadOk rom = false := by
  unfold load_rom loadOk
  split_ifs with h1 h2 h3 h4 <;> simp_all

theorem load_rom_some (s : NES) (rom : List Nat) (h : loadOk rom = true) :
    load_rom s rom = some { s with
      mapper := mapperOf rom
      prg_rom := romPrg rom
      chr_rom := romChr rom
      memory := mapLoop s.memory (romPrg rom) (mapperOf rom)
      ppu_memory := chrCopy s.ppu_memory (romChr rom) } := by
  unfold loadOk at h
  simp only [Bool.and_eq_true, beq_iff_eq, decide_eq_true_eq] at h
  obtain ⟨⟨⟨hmagic, hlen⟩, hprg⟩, hchr⟩ := h
  unfold load_rom
  rw [if_neg (by simp [hmagic]), if_neg (by omega), if_neg (by simp [hprg]),
    if_neg (by omega)]

theorem loadOk_parts {rom : List Nat} (h : loadOk rom = true) :
    (romHeader rom).take 4 = [0x4E, 0x45, 0x53, 0x1A] ∧ 8 ≤ (romHeader rom).length ∧
    (romPrg rom).length = prgSize rom ∧ (romChr rom).length ≤ 0x4000 := by
  unfold loadOk at h
  simp only [Bool.and_eq_true, beq_iff_eq, decide_eq_true_eq] at h
  exact ⟨h.1.1.1, h.1.1.2, h.1.2, h.2⟩

/-- C5: For a successfully loaded mapper-0 image with one 16KB bank the bank
appears at 0x8000 and is mirrored at 0xC000; with two banks they sit
consecutively at 0x8000/0xC000; for a non-zero mapper id no program byte is
written into CPU memory. -/
theorem mapper0_mapping (s s' : NES) (rom : List Nat) (h : load_rom s rom = some s') :
    (mapperOf rom = 0 → (romHeader rom).getD 4 0 = 1 →
      ∀ i, i < 0x4000 → s'.memory (0x8000 + i) = (romPrg rom).getD i 0 ∧
        s'.memory (0xC000 + i) = (romPrg rom).getD i 0) ∧
    (mapperOf rom = 0 → (romHeader rom).getD 4 0 = 2 →
      ∀ i, i < 0x8000 → s'.memory (0x8000 + i) = (romPrg rom).getD i 0) ∧
    (mapperOf rom ≠ 0 → ∀ a, s'.memory a = s.memory a) := by
  have hok : loadOk rom = true := by
    cases hLO : loadOk rom
    · rw [← load_rom_none_iff s rom] at hLO
      rw [hLO] at h
      exact Option.noConfusion h
    · rfl
  have hsome := load_rom_some s rom hok
  rw [hsome, Option.some.injEq] at h
  subst h
  obtain ⟨_, _, hprg, _⟩ := loadOk_parts hok
  refine ⟨?_, ?_, ?_⟩
  · intro hmap h1 i hi
    have hlen : (romPrg rom).length = 0x4000 := by
      rw [hprg]
      unfold prgSize
      rw [h1]
    constructor
    · show mapLoop s.memory (romPrg rom) (mapperOf rom) (0x8000 + i) = _
      rw [hmap, mapLoop_zero, hlen]
      unfold mapZeroSpec
      rw [if_pos (by omega)]
      rw [Nat.add_sub_cancel_left]
    · show mapLoop s.memory (romPrg rom) (mapperOf rom) (0xC000 + i) = _
      rw [hmap, mapLoop_zero, hlen]
      unfold mapZeroSpec
      rw [if_neg (by omega), if_pos (by omega)]
      rw [Nat.add_sub_cancel_left]
  · intro hmap h2 i hi
    have hlen : (romPrg rom).length = 0x8000 := by
      rw [hprg]
      unfold prgSize
      rw [h2]
    show mapLoop s.memory (romPrg rom) (mapperOf rom) (0x8000 + i) = _
    rw [hmap, mapLoop_zero, hlen]
    unfold mapZeroSpec
    rw [if_pos (by omega)]
    rw [Nat.add_sub_cancel_left]
  · intro hmap a
    show mapLoop s.memory (romPrg rom) (mapperOf rom) a = s.memory a
    rw [mapLoop_nonzero _ _ _ hmap]

/-- Witness for C5 at a concrete 8-byte image with mapper id 1: the load
succeeds and CPU memory at 0x8000 is untouched. -/
theorem mapper0_mapping_witness :
    ((load_rom initNES [0x4E, 0x45, 0x53, 0x1A, 0, 0, 0x10, 0]).getD initNES).memory 0x8000
      = initNES.memory 0x8000 := by
  have hD : (romChr [0x4E, 0x45, 0x53, 0x1A, 0, 0, 0x10, 0]).length = 0x2000 := by
    unfold romChr chrSize
    rw [if_neg (by decide)]
    exact List.length_replicate _ _
  have hok : loadOk [0x4E, 0x45, 0x53, 0x1A, 0, 0, 0x10, 0] = true := by
    unfold loadOk
    rw [hD]
    decide
  have h := load_rom_some initNES [0x4E, 0x45, 0x53, 0x1A, 0, 0, 0x10, 0] hok
  rw [h]
  exact (mapper0_mapping initNES _ _ h).2.2 (by decide) 0x8000

/-- C6 (amended): load fails exactly when the magic mismatches, header bytes
4–7 are missing (file shorter than 8 bytes), the declared PRG region cannot be
read in full, or more than 16384 pattern bytes are present (the pattern copy
loop overruns the 16KB pattern memory); on success the parsed program size is
exactly `header[4] * 16384`, the pattern region is the declared
`header[5] * 8192`-byte slice, and a zero pattern-bank count yields a zeroed
8KB pattern region. -/
theorem load_rom_spec_amended (s : NES) (rom : List Nat) :
    (load_rom s rom = none ↔ loadOk rom = false) ∧
    (loadOk rom = true → ∃ s', load_rom s rom = some s' ∧
      s'.prg_rom = romPrg rom ∧
      s'.prg_rom.length = (romHeader rom).getD 4 0 * 0x4000 ∧
      s'.chr_rom = romChr rom ∧
      ((romHeader rom).getD 5 0 = 0 → s'.chr_rom = List.replicate 0x2000 0)) := by
  refine ⟨load_rom_none_iff s rom, ?_⟩
  intro hok
  refine ⟨_, load_rom_some s rom hok, rfl, ?_, rfl, ?_⟩
  · show (romPrg rom).length = _
    rw [(loadOk_parts hok).2.2.1]
    rfl
  · intro h5
    show romChr rom = _
    unfold romChr chrSize
    rw [h5]
    rw [if_neg (by norm_num)]

/-- C6 counterexample: a 6-byte image whose magic matches and whose declared
(empty) PRG region is fully readable still fails to load — the claim's
"otherwise load succeeds" is wrong for it, because `header[6]` raises
`IndexError` when the header has fewer than 8 bytes. -/
theorem load_rom_truncated_header_cex :
    (romHeader [0x4E, 0x45, 0x53, 0x1A, 0, 0]).take 4 = [0x4E, 0x45, 0x53, 0x1A] ∧
    (romPrg [0x4E, 0x45, 0x53, 0x1A, 0, 0]).length = prgSize [0x4E, 0x45, 0x53, 0x1A, 0, 0] ∧
    load_rom initNES [0x4E, 0x45, 0x53, 0x1A, 0, 0] = none := by
  refine ⟨by decide, by decide, ?_⟩
  rfl

/-- Witness for the amended C6 at a concrete 8-byte image that loads
successfully with zero program and pattern banks. -/
theorem load_rom_spec_amended_witness :
    ∃ s', load_rom initNES [0x4E, 0x45, 0x53, 0x1A, 0, 0, 0, 0] = some s' ∧
      s'.prg_rom = romPrg [0x4E, 0x45, 0x53, 0x1A, 0, 0, 0, 0] ∧
      s'.prg_rom.length = (romHeader [0x4E, 0x45, 0x53, 0x1A, 0, 0, 0, 0]).getD 4 0 * 0x4000 ∧
      s'.chr_rom = romChr [0x4E, 0x45, 0x53, 0x1A, 0, 0, 0, 0] ∧
      ((romHeader [0x4E, 0x45, 0x53, 0x1A, 0, 0, 0, 0]).getD 5 0 = 0 →
        s'.chr_rom = List.replicate 0x2000 0) := by
  have hD : (romChr [0x4E, 0x45, 0x53, 0x1A, 0, 0, 0, 0]).length = 0x2000 := by
    unfold romChr chrSize
    rw [if_neg (by decide)]
    exact List.length_replicate _ _
  have hok : loadOk [0x4E, 0x45, 0x53, 0x1A, 0, 0, 0, 0] = true := by
    unfold loadOk
    rw [hD]
    decide
  exact (load_rom_spec_amended initNES _).2 hok

theorem execOp_lda_imm (u : NES) (hu : u.registers.PC < 0x10000) :
    execOp u 0xA9 = .inr (set_flags { u with registers := { u.registers with
      A := u.memory u.registers.PC, PC := (u.registers.PC + 1) % 0x10000 } }
      (u.memory u.registers.PC), 2) := by
  unfold execOp
  rw [if_pos rfl, readMem_eq hu]

theorem pushedMem_at_hi (mem : Nat → Nat) (PC S P : Nat) :
    pushedMem mem PC S P (0x100 + S) = PC >>> 8 % 256 := by
  unfold pushedMem upd
  rw [if_neg (by omega), if_neg (by omega), if_pos rfl]

theorem pushedMem_at_lo (mem : Nat → Nat) (PC S P : Nat) :
    pushedMem mem PC S P (0x100 + (S + 255) % 256) = PC % 256 := by
  unfold pushedMem upd
  rw [if_neg (by omega), if_pos rfl]

theorem pushedMem_at_p (mem : Nat → Nat) (PC S P : Nat) :
    pushedMem mem PC S P (0x100 + ((S + 255) % 256 + 255) % 256) = P := by
  unfold pushedMem upd
  rw [if_pos rfl]

theorem pushedMem_frame (mem : Nat → Nat) (PC S P a : Nat) (ha1 : a ≠ 0x100 + S)
    (ha2 : a ≠ 0x100 + (S + 255) % 256)
    (ha3 : a ≠ 0x100 + ((S + 255) % 256 + 255) % 256) :
    pushedMem mem PC S P a = mem a := by
  unfold pushedMem upd
  rw [if_neg ha3, if_neg ha2, if_neg ha1]

theorem pushedMem_vec (mem : Nat → Nat) (PC S P : Nat) (hS : S < 256) :
    (pushedMem mem PC S P 0xFFFB <<< 8) ||| pushedMem mem PC S P 0xFFFA =
    (mem 0xFFFB <<< 8) ||| mem 0xFFFA := by
  have h1 : pushedMem mem PC S P 0xFFFB = mem 0xFFFB := by
    unfold pushedMem upd
    rw [if_neg (by omega), if_neg (by omega), if_neg (by omega)]
  have h2 : pushedMem mem PC S P 0xFFFA = mem 0xFFFA := by
    unfold pushedMem upd
    rw [if_neg (by omega), if_neg (by omega), if_neg (by omega)]
  rw [h1, h2]

set_option maxRecDepth 8000 in
/-- C2: when PendingInterrupt is set, one step pushes PC-high at `0x100 + S`,
then PC-low, then the status byte (S decrementing by 1 mod 256 after each push,
net decrease 3), touches no other memory, loads PC little-endian from
0xFFFA/0xFFFB, sets the interrupt-disable bit 0x04, clears the pending flag,
and returns exactly 7 cycles. -/
theorem nmi_service_spec (s : NES) (hn : s.nmi_pending = true)
    (hS : s.registers.S < 256) :
    ∃ s', cpu_step s = some (s', 7) ∧
      s'.memory (0x100 + s.registers.S) = (s.registers.PC >>> 8) % 256 ∧
      s'.memory (0x100 + (s.registers.S + 255) % 256) = s.registers.PC % 256 ∧
      s'.memory (0x100 + ((s.registers.S + 255) % 256 + 255) % 256) = s.registers.P ∧
      s'.registers.S = (s.registers.S + 253) % 256 ∧
      (∀ a, a ≠ 0x100 + s.registers.S → a ≠ 0x100 + (s.registers.S + 255) % 256 →
        a ≠ 0x100 + ((s.registers.S + 255) % 256 + 255) % 256 →
        s'.memory a = s.memory a) ∧
      s'.registers.PC = (s.memory 0xFFFB <<< 8) ||| s.memory 0xFFFA ∧
      s'.registers.P = s.registers.P ||| 0x04 ∧
      s'.nmi_pending = false := by
  refine ⟨_, cpu_step_nmi s hn hS, ?_, ?_, ?_, ?_, ?_, ?_, ?_, ?_⟩
  · with_reducible change pushedMem s.memory s.registers.PC s.registers.S s.registers.P (0x100 + s.registers.S) = s.registers.PC >>> 8 % 256
    exact pushedMem_at_hi s.memory s.registers.PC s.registers.S s.registers.P
  · with_reducible change pushedMem s.memory s.registers.PC s.registers.S s.registers.P (0x100 + (s.registers.S + 255) % 256) = s.registers.PC % 256
    exact pushedMem_at_lo s.memory s.registers.PC s.registers.S s.registers.P
  · with_reducible change pushedMem s.memory s.registers.PC s.registers.S s.registers.P (0x100 + ((s.registers.S + 255) % 256 + 255) % 256) = s.registers.P
    exact pushedMem_at_p s.memory s.registers.PC s.registers.S s.registers.P
  · with_reducible change (((s.registers.S + 255) % 256 + 255) % 256 + 255) % 256 = (s.registers.S + 253) % 256
    omega
  · intro a ha1 ha2 ha3
    with_reducible change pushedMem s.memory s.registers.PC s.registers.S s.registers.P a = s.memory a
    exact pushedMem_frame s.memory s.registers.PC s.registers.S s.registers.P a ha1 ha2 ha3
  · with_reducible change (pushedMem s.memory s.registers.PC s.registers.S s.registers.P 0xFFFB <<< 8) ||| pushedMem s.memory s.registers.PC s.registers.S s.registers.P 0xFFFA = (s.memory 0xFFFB <<< 8) ||| s.memory 0xFFFA
    exact pushedMem_vec s.memory s.registers.PC s.registers.S s.registers.P hS
  · with_reducible rfl
  · with_reducible rfl

/-- Witness for C2 on the freshly initialised machine with the pending flag
set. -/
theorem nmi_service_spec_witness :
    ∃ s', cpu_step { initNES with nmi_pending := true } = some (s', 7) ∧
      s'.registers.P = 0x34 ||| 0x04 ∧ s'.nmi_pending = false ∧
      s'.registers.S = (0xFD + 253) % 256 := by
  obtain ⟨s', h1, _, _, _, h5, _, _, h8, h9⟩ :=
    nmi_service_spec { initNES with nmi_pending := true } rfl (by decide)
  exact ⟨s', h1, h8, h9, h5⟩

/-- C3: with no interrupt pending, an opcode absent from the dispatch table —
or a caught fault while decoding/executing a dispatched opcode — never raises
to the caller, costs exactly 2 cycles, and changes nothing beyond the fetch:
PC advances by exactly 1 (mod 2^16) and the cycle counter absorbs the 2
cycles; A, X, Y, S, P, memory and the pending flag are untouched. -/
theorem unknown_opcode_fallback (s : NES) (hn : s.nmi_pending = false)
    (hPC : s.registers.PC < 0x10000)
    (h : (s.memory s.registers.PC ≠ 0xA9 ∧ s.memory s.registers.PC ≠ 0xAD ∧
          s.memory s.registers.PC ≠ 0x8D ∧ s.memory s.registers.PC ≠ 0x4C) ∨
         (∃ t, execOp (fetchAdvance s) (s.memory s.registers.PC) = .inl t)) :
    cpu_step s = some ({ s with
      registers := { s.registers with PC := (s.registers.PC + 1) % 0x10000 }
      cycles := s.cycles + 2 }, 2) := by
  rw [cpu_step_normal s hn hPC]
  rcases h with ⟨h1, h2, h3, h4⟩ | ⟨t, ht⟩
  · have hE : execOp (fetchAdvance s) (s.memory s.registers.PC) =
        .inr (fetchAdvance s, 2) := by
      unfold execOp
      rw [if_neg h1, if_neg h2, if_neg h3, if_neg h4]
    rw [hE]
    rfl
  · rw [ht, execOp_inl_eq (fetchAdvance s) t (s.memory s.registers.PC) ht]
    rfl

/-- Witness for C3 with memory filled with the undispatched opcode 0xFF. -/
theorem unknown_opcode_fallback_witness :
    cpu_step { initNES with memory := fun _ => 0xFF } =
      some ({ initNES with
        memory := fun _ => 0xFF
        registers := { initNES.registers with
          PC := (initNES.registers.PC + 1) % 0x10000 }
        cycles := initNES.cycles + 2 }, 2) :=
  unknown_opcode_fallback { initNES with memory := fun _ => 0xFF } rfl (by decide)
    (Or.inl ⟨by decide, by decide, by decide, by decide⟩)

/-- C7: load-accumulator-immediate (0xA9) with operand byte V sets A to V,
sets the zero flag (bit 0x02) iff V = 0 and the negative flag (bit 0x80) iff
V has bit 7, alters no other status bit, advances PC by exactly 2 (mod 2^16)
from the opcode address, and costs exactly 2 cycles. -/
theorem lda_immediate_spec (s : NES) (hn : s.nmi_pending = false)
    (hPC : s.registers.PC < 0x10000) (hop : s.memory s.registers.PC = 0xA9) :
    ∃ P', cpu_step s = some ({ s with
        registers := { s.registers with
          A := s.memory ((s.registers.PC + 1) % 0x10000)
          PC := (s.registers.PC + 2) % 0x10000
          P := P' }
        cycles := s.cycles + 2 }, 2) ∧
      (P' &&& 0x02 ≠ 0 ↔ s.memory ((s.registers.PC + 1) % 0x10000) = 0) ∧
      (P' &&& 0x80 ≠ 0 ↔ s.memory ((s.registers.PC + 1) % 0x10000) &&& 0x80 ≠ 0) ∧
      P' &&& 0x7D = s.registers.P &&& 0x7D := by
  refine ⟨set_flagsP s.registers.P (s.memory ((s.registers.PC + 1) % 0x10000)),
    ?_, ?_, ?_, set_flagsP_and_7D _ _⟩
  · rw [cpu_step_normal s hn hPC, hop,
      execOp_lda_imm (fetchAdvance s) (Nat.mod_lt _ (by norm_num))]
    simp only [set_flags, fetchAdvance]
    rw [Nat.mod_add_mod]
  · rw [set_flagsP_zero_bit]
    split_ifs with hv <;> simp [hv]
  · rw [set_flagsP_neg_bit]
    split_ifs with hv <;> simp [hv]

/-- Witness for C7: executing 0xA9 with operand 0x80 at the reset PC. -/
theorem lda_immediate_spec_witness :
    ∃ s' P', cpu_step { initNES with
        memory := fun i => if i = 0x8001 then 0x80 else if i = 0x8000 then 0xA9 else 0 } =
      some (s', 2) ∧ s'.registers.A = 0x80 ∧ P' &&& 0x80 ≠ 0 ∧
      s'.registers.P = P' := by
  obtain ⟨P', h1, _, h3, _⟩ := lda_immediate_spec { initNES with
      memory := fun i => if i = 0x8001 then 0x80 else if i = 0x8000 then 0xA9 else 0 }
    rfl (by decide) (by decide)
  refine ⟨_, P', h1, rfl, h3.mpr (by decide), rfl⟩

/-- C10 (implicit): on any well-formed machine state `cpu_step` returns a
strictly positive cycle count — 7 on the interrupt path, otherwise 2, 3 or 4 —
so the per-frame loop accumulating those counts reaches any finite cycle
budget and terminates (`runFrame` is total, never aborts, and its accumulated
count reaches the target). -/
theorem cpu_step_cycles_loop (s : NES) (hWF : WF s) :
    (∃ s' c, cpu_step s = some (s', c) ∧ 0 < c ∧ (c = 7 ∨ c = 2 ∨ c = 3 ∨ c = 4)) ∧
    (∀ acc target, (runFrame s acc target).2.2 = false ∧
      target ≤ (runFrame s acc target).2.1) := by
  constructor
  · obtain ⟨s', c, h1, h2, h3⟩ := cpu_step_WF s hWF
    exact ⟨s', c, h1, by omega, h3⟩
  · intro acc target
    exact runFrame_reaches_target (target - acc) s acc target hWF (le_refl _)

/-- Witness for C10 on the freshly initialised machine with a budget of 10. -/
theorem cpu_step_cycles_loop_witness :
    (∃ s' c, cpu_step initNES = some (s', c) ∧ 0 < c ∧
      (c = 7 ∨ c = 2 ∨ c = 3 ∨ c = 4)) ∧
    ((runFrame initNES 0 10).2.2 = false ∧ 10 ≤ (runFrame initNES 0 10).2.1) := by
  have hWF : WF initNES := by
    refine ⟨by decide, by decide, by decide, by decide, ?_⟩
    intro i
    show (0 : Nat) < 256
    decide
  have h := cpu_step_cycles_loop initNES hWF
  exact ⟨h.1, h.2 0 10⟩

theorem renderRow_fold (vram ppu : Nat → Nat) (y : Nat) (d : Nat → Nat) : ∀ k a,
    ((List.range k).foldl (fun d x => upd d (y * 256 + x) (renderPixel vram ppu y x)) d) a =
      if y * 256 ≤ a ∧ a < y * 256 + k then renderPixel vram ppu y (a - y * 256)
      else d a := by
  intro k
  induction k with
  | zero =>
    intro a
    simp only [List.range_zero, List.foldl_nil]
    rw [if_neg (by omega)]
  | succ k ih =>
    intro a
    rw [List.range_succ, List.foldl_append, List.foldl_cons, List.foldl_nil]
    generalize hF : (List.range k).foldl
      (fun d x => upd d (y * 256 + x) (renderPixel vram ppu y x)) d = F
    rw [hF] at ih
    unfold upd
    by_cases ha : a = y * 256 + k
    · rw [if_pos ha, if_pos (by omega)]
      rw [show a - y * 256 = k from by omega]
    · rw [if_neg ha, ih]
      by_cases hc : y * 256 ≤ a ∧ a < y * 256 + k
      · rw [if_pos hc, if_pos (by omega)]
      · rw [if_neg hc, if_neg (by omega)]

theorem renderRow_get (vram ppu : Nat → Nat) (y : Nat) (d : Nat → Nat) (a : Nat) :
    renderRow vram ppu y d a =
      if y * 256 ≤ a ∧ a < y * 256 + 256 then renderPixel vram ppu y (a - y * 256)
      else d a :=
  renderRow_fold vram ppu y d 256 a

theorem renderAll_fold (vram ppu : Nat → Nat) (d : Nat → Nat) : ∀ k a,
    ((List.range k).foldl (fun d y => renderRow vram ppu y d) d) a =
      if a < k * 256 then renderPixel vram ppu (a / 256) (a % 256) else d a := by
  intro k
  induction k with
  | zero =>
    intro a
    simp only [List.range_zero, List.foldl_nil]
    rw [if_neg (by omega)]
  | succ k ih =>
    intro a
    rw [List.range_succ, List.foldl_append, List.foldl_cons, List.foldl_nil]
    generalize hF : (List.range k).foldl (fun d y => renderRow vram ppu y d) d = F
    rw [hF] at ih
    rw [renderRow_get, ih]
    by_cases hc : k * 256 ≤ a ∧ a < k * 256 + 256
    · rw [if_pos hc, if_pos (show a < (k + 1) * 256 from by omega)]
      rw [show a / 256 = k from by omega, show a % 256 = a - k * 256 from by omega]
    · rw [if_neg hc]
      by_cases hc2 : a < k * 256
      · rw [if_pos hc2, if_pos (by omega)]
      · rw [if_neg hc2, if_neg (by omega)]

theorem two_bit_lt (bh bl : Nat) (h1 : bh ≤ 1) (h2 : bl ≤ 1) : (bh <<< 1) ||| bl < 4 := by
  interval_cases bh <;> interval_cases bl <;> decide

theorem pixValue_lt (vram ppu : Nat → Nat) (y x : Nat) : pixValue vram ppu y x < 4 := by
  unfold pixValue
  exact two_bit_lt _ _ Nat.and_le_right Nat.and_le_right

theorem renderPixel_eq (vram ppu : Nat → Nat) (y x : Nat) :
    renderPixel vram ppu y x = ppu (0x3F00 + pixValue vram ppu y x) &&& 0x3F := by
  have hp := pixValue_lt vram ppu y x
  simp only [renderPixel]
  have hsel : (if pixValue vram ppu y x = 0 then 0 else pixValue vram ppu y x) =
      pixValue vram ppu y x := by
    split_ifs with h
    · rw [h]
    · rfl
  rw [hsel]
  rw [if_pos (by omega)]
  rw [Nat.mod_eq_of_lt (by omega)]

theorem render_frame_get (s : NES) (y x : Nat) (hy : y < 240) (hx : x < 256) :
    (render_frame s).display (y * 256 + x) =
      s.ppu_memory (0x3F00 + pixValue s.vram s.ppu_memory y x) &&& 0x3F := by
  simp only [render_frame]
  rw [renderAll_fold, if_pos (by omega), show (y * 256 + x) / 256 = y from by omega,
    show (y * 256 + x) % 256 = x from by omega]
  exact renderPixel_eq _ _ _ _

/-- C9: each rasterize call recomputes every frame-buffer entry from the
graphics state alone — entry (y, x) equals the picture-memory byte at
`0x3F00 + pixel_value` masked to 6 bits (hence < 64), independently of the
prior frame-buffer contents. -/
theorem render_frame_spec (s : NES) (d : Nat → Nat) (y x : Nat)
    (hy : y < 240) (hx : x < 256) :
    (render_frame s).display (y * 256 + x) =
      s.ppu_memory (0x3F00 + pixValue s.vram s.ppu_memory y x) &&& 0x3F ∧
    (render_frame s).display (y * 256 + x) < 64 ∧
    (render_frame s).display (y * 256 + x) =
      (render_frame { s with display := d }).display (y * 256 + x) := by
  have h2 := render_frame_get s y x hy hx
  have h3 : (render_frame { s with display := d }).display (y * 256 + x) =
      s.ppu_memory (0x3F00 + pixValue s.vram s.ppu_memory y x) &&& 0x3F :=
    render_frame_get { s with display := d } y x hy hx
  refine ⟨h2, ?_, ?_⟩
  · rw [h2]
    have hle : s.ppu_memory (0x3F00 + pixValue s.vram s.ppu_memory y x) &&& 0x3F ≤ 0x3F :=
      Nat.and_le_right
    omega
  · rw [h2, h3]

/-- Witness for C9 at pixel (0, 0) of the freshly initialised machine. -/
theorem render_frame_spec_witness :
    (render_frame initNES).display (0 * 256 + 0) =
      initNES.ppu_memory (0x3F00 + pixValue initNES.vram initNES.ppu_memory 0 0) &&& 0x3F ∧
    (render_frame initNES).display (0 * 256 + 0) < 64 ∧
    (render_frame initNES).display (0 * 256 + 0) =
      (render_frame { initNES with display := fun _ => 7 }).display (0 * 256 + 0) :=
  render_frame_spec initNES (fun _ => 7) 0 0 (by decide) (by decide)

/-- C8: capture immediately followed by restore is a no-op (every field equals
its pre-capture value and no error is flagged), and a captured snapshot is a
value independent of live state: restoring it onto any later, arbitrarily
mutated state reproduces exactly the captured fields. -/
theorem snapshot_roundtrip (s s' : NES) :
    load_state s (save_state s) = (s, false) ∧
    (load_state s' (save_state s)).2 = false ∧
    (load_state s' (save_state s)).1.memory = s.memory ∧
    (load_state s' (save_state s)).1.registers = s.registers ∧
    (load_state s' (save_state s)).1.ppu_memory = s.ppu_memory ∧
    (load_state s' (save_state s)).1.vram = s.vram ∧
    (load_state s' (save_state s)).1.palette = s.palette ∧
    (load_state s' (save_state s)).1.display = s.display ∧
    (load_state s' (save_state s)).1.keys = s.keys ∧
    (load_state s' (save_state s)).1.cycles = s.cycles ∧
    (load_state s' (save_state s)).1.nmi_pending = s.nmi_pending :=
  ⟨rfl, rfl, rfl, rfl, rfl, rfl, rfl, rfl, rfl, rfl, rfl⟩

/-- C1 (failing-input demonstration): restoring from a snapshot dict that
contains only the memory key replaces live memory and then raises on the
missing registers key — the error escapes with the partial commit in place,
so live state is not left as it was. -/
theorem load_state_partial_commit :
    (load_state initNES
      ⟨some (fun _ => 1), none, none, none, none, none, none, none, none⟩).2 = true ∧
    (load_state initNES
      ⟨some (fun _ => 1), none, none, none, none, none, none, none, none⟩).1.memory 0 = 1 ∧
    initNES.memory 0 = 0 :=
  ⟨rfl, rfl, rfl⟩

/-- C4 counterexample: with PC = 0xFFFE and opcode 0xAD there, the second
operand fetch uses the unmasked index PC + 1 = 0x10000, which is out of the
0..0xFFFF range — refuting "every index … is in range 0..65535". -/
theorem operand_fetch_out_of_range_cex :
    MemAcc.mk false 0x10000 ∈ stepAccesses { initNES with
      memory := fun i => if i = 0xFFFE then 0xAD else 0
      registers := { initNES.registers with PC := 0xFFFE } } ∧
    ¬ (0x10000 : Nat) < 0x10000 := by
  constructor
  · decide
  · decide

/-- C4 (amended): under the register invariants every attempted access of a
CPU step is in range 0..0xFFFF, except that the second operand-byte fetch of
the absolute-addressed opcodes uses the unmasked index PC + 1, which is out of
range (equal to 0x10000) exactly when the pre-step PC is 0xFFFE; that access
is a read (never a write) and its fault is caught by the step. -/
theorem step_accesses_in_range (s : NES) (hS : s.registers.S < 256)
    (hPC : s.registers.PC < 0x10000) :
    ∀ a ∈ stepAccesses s, a.idx < 0x10000 ∨
      (a.write = false ∧ a.idx = 0x10000 ∧ s.nmi_pending = false ∧
        s.registers.PC = 0xFFFE) := by
  intro a ha
  unfold stepAccesses at ha
  by_cases hn : s.nmi_pending = true
  · rw [if_pos hn, if_pos (by omega), if_pos (by omega), if_pos (by omega)] at ha
    simp only [List.mem_cons, List.not_mem_nil, or_false] at ha
    rcases ha with h | h | h | h | h
    · subst h
      left
      show 0x100 + s.registers.S < 0x10000
      omega
    · subst h
      left
      show 0x100 + (s.registers.S + 255) % 256 < 0x10000
      omega
    · subst h
      left
      show 0x100 + ((s.registers.S + 255) % 256 + 255) % 256 < 0x10000
      omega
    · subst h
      left
      decide
    · subst h
      left
      decide
  · simp only [Bool.not_eq_true] at hn
    rw [hn, if_neg Bool.false_ne_true, if_pos hPC] at ha
    simp only [List.mem_cons] at ha
    rcases ha with h | ha
    · subst h
      left
      exact hPC
    · have hpc1 : (s.registers.PC + 1) % 0x10000 < 0x10000 := Nat.mod_lt _ (by norm_num)
      by_cases h9 : s.memory s.registers.PC = 0xA9
      · rw [if_pos h9] at ha
        simp only [List.mem_cons, List.not_mem_nil, or_false] at ha
        subst ha
        left
        exact hpc1
      · rw [if_neg h9] at ha
        by_cases hAbs : s.memory s.registers.PC = 0xAD ∨ s.memory s.registers.PC = 0x8D
        · rw [if_pos hAbs] at ha
          by_cases hin : (s.registers.PC + 1) % 0x10000 + 1 < 0x10000
          · rw [if_pos hin] at ha
            simp only [List.mem_cons, List.not_mem_nil, or_false] at ha
            rcases ha with h | h | h
            · subst h
              left
              exact hpc1
            · subst h
              left
              exact hin
            · subst h
              left
              exact Nat.mod_lt _ (by norm_num)
          · rw [if_neg hin] at ha
            simp only [List.mem_cons, List.not_mem_nil, or_false] at ha
            rcases ha with h | h
            · subst h
              left
              exact hpc1
            · subst h
              right
              refine ⟨rfl, ?_, hn, ?_⟩
              · show (s.registers.PC + 1) % 0x10000 + 1 = 0x10000
                omega
              · omega
        · rw [if_neg hAbs] at ha
          by_cases h4C : s.memory s.registers.PC = 0x4C
          · rw [if_pos h4C] at ha
            simp only [List.mem_cons, List.not_mem_nil, or_false] at ha
            rcases ha with h | h
            · subst h
              left
              exact hpc1
            · subst h
              by_cases hin : (s.registers.PC + 1) % 0x10000 + 1 < 0x10000
              · left
                exact hin
              · right
                refine ⟨rfl, ?_, hn, ?_⟩
                · show (s.registers.PC + 1) % 0x10000 + 1 = 0x10000
                  omega
                · omega
          · rw [if_neg h4C] at ha
            simp only [List.not_mem_nil] at ha

/-- Witness for the amended C4: the opcode fetch of the freshly initialised
machine is an access at 0x8000, in range. -/
theorem step_accesses_in_range_witness :
    MemAcc.mk false 0x8000 ∈ stepAccesses initNES ∧
    ((MemAcc.mk false 0x8000).idx < 0x10000 ∨
      ((MemAcc.mk false 0x8000).write = false ∧ (MemAcc.mk false 0x8000).idx = 0x10000 ∧
        initNES.nmi_pending = false ∧ initNES.registers.PC = 0xFFFE)) :=
  ⟨by decide, step_accesses_in_range initNES (by decide) (by decide)
    (MemAcc.mk false 0x8000) (by decide)⟩
